import Mathlib

/-!
Shallow embedding of `src/shell_tools_mcp_server/server.py` (shell-tools-mcp).

The file has two independent components:

* a command runner (`run_shell_command`), embedded here as a pure function of
  the call arguments together with an oracle describing the operating system's
  behaviour (exit code, captured streams, timeout, spawned pid).  The static
  spawn parameters of the `subprocess` call (shell, `preexec_fn=os.setsid`,
  whether the call waits, whether a timeout is passed) are reified in a
  `SpawnConfig` record so that claims about process-group creation and
  waiting are statable;

* a text patcher (`file_read`, `file_edit`, `file_multi_edit`,
  `file_replace`), embedded over a file-system state `FS` mapping paths to
  text contents (`List Char`).  Python's `str.replace(old, new)` and
  `str.replace(old, new, 1)` are translated as `replaceAllChars` and
  `replaceFirstChars`, `str.strip()` as `pyStrip`, and `readlines()` as
  `pyReadlines`.  Python exceptions cannot arise in this model (the OS-level
  I/O faults of the `except` branches are outside the state model); every
  operation is a total function returning the new state and the result
  string, exactly following the source's control flow.
-/

/-- Whitespace as stripped by Python `str.strip()` (the ASCII cases). -/
def isPySpace (c : Char) : Bool :=
  c = ' ' || c = '\t' || c = '\n' || c = '\r' || c = '\x0b' || c = '\x0c'

/-- Embedding of Python `str.strip()`: drop whitespace from both ends. -/
def pyStrip (s : List Char) : List Char :=
  ((s.dropWhile isPySpace).reverse.dropWhile isPySpace).reverse

/-- Boolean test that `o` is a leading segment of `s` (substring match anchored
at the start), used to translate Python's literal substring search. -/
def isPre : List Char → List Char → Bool
  | [], _ => true
  | _ :: _, [] => false
  | a :: as, b :: bs => a == b && isPre as bs

/-- Boolean test that `o` occurs as a contiguous substring of `s`. -/
def occursIn : List Char → List Char → Bool
  | o, [] => isPre o []
  | o, c :: rest => isPre o (c :: rest) || occursIn o rest

/-- Embedding of Python `content.replace(old, new, 1)`: substitute the leftmost
occurrence of `old` (for empty `old`, Python prepends `new`). -/
def replaceFirstChars (old new : List Char) : List Char → List Char
  | [] => if isPre old [] then new else []
  | c :: rest =>
    if isPre old (c :: rest) then new ++ (c :: rest).drop old.length
    else c :: replaceFirstChars old new rest

/-- Embedding of Python `content.replace(old, new)`: substitute every
non-overlapping occurrence of `old`, scanning left to right (for empty `old`,
Python interleaves `new` at every position, including both ends). -/
def replaceAllChars (old new : List Char) : List Char → List Char
  | [] => if old.isEmpty then new else []
  | c :: rest =>
    if h : old.isEmpty then new ++ c :: replaceAllChars old new rest
    else if isPre old (c :: rest) then
      new ++ replaceAllChars old new ((c :: rest).drop old.length)
    else c :: replaceAllChars old new rest
termination_by s => s.length
decreasing_by
  all_goals simp_wf
  have hlen : 0 < old.length := by
    cases old with
    | nil => simp at h
    | cons a as => simp
  omega

/-- Embedding of Python `file.readlines()` on text content: split into lines,
each keeping its trailing newline (the last line may lack one). -/
def pyReadlines : List Char → List (List Char)
  | [] => []
  | c :: rest =>
    if c = '\n' then [c] :: pyReadlines rest
    else
      match pyReadlines rest with
      | [] => [[c]]
      | l :: ls => (c :: l) :: ls

/-! ## File-system state and the text-patching operations -/

/-- File-system state: a path names either an existing regular file with its
text content, or nothing (`os.path.isfile` false). -/
def FS : Type := String → Option (List Char)

/-- Overwrite the content stored at path `p` (the `open(p, 'w')` write). -/
def updateFS (fs : FS) (p : String) (c : List Char) : FS :=
  fun q => if q = p then some c else fs q

/-- The `"File not found: {path}. Recheck the path."` result string shared by
`file_read`, `file_edit`, `file_multi_edit` and `file_replace`. -/
def notFoundMsg (p : String) : List Char :=
  "File not found: ".data ++ p.data ++ ". Recheck the path.".data

/-- Embedding of `file_edit`: read the whole content, replace the first or all
occurrences of `old_string` by `new_string`, write the result back, and return
the success message; on a missing file return the not-found message and leave
the state untouched. -/
def file_edit (fs : FS) (file_path : String) (old_string new_string : List Char)
    (replace_all : Bool) : FS × List Char :=
  match fs file_path with
  | none => (fs, notFoundMsg file_path)
  | some content =>
    let new_content :=
      if replace_all then replaceAllChars old_string new_string content
      else replaceFirstChars old_string new_string content
    (updateFS fs file_path new_content, "Successfully edited ".data ++ file_path.data)

/-- One element of the `edits` list of `file_multi_edit`: a dict that may lack
the `old_string` / `new_string` keys (then `dict.get` yields `None`), with
`replace_all` defaulting to false. -/
structure EditOperation where
  old_string : Option (List Char)
  new_string : Option (List Char)
  replace_all : Bool := false

/-- The body of `file_multi_edit`'s loop: apply one edit operation to the
in-memory content, skipping it when `old_string` or `new_string` is missing. -/
def applyEdit (content : List Char) (e : EditOperation) : List Char :=
  match e.old_string, e.new_string with
  | some o, some n =>
    if e.replace_all then replaceAllChars o n content else replaceFirstChars o n content
  | _, _ => content

/-- Embedding of `file_multi_edit`: read once, fold the edit operations over
the in-memory content in list order, write the final content once. -/
def file_multi_edit (fs : FS) (file_path : String) (edits : List EditOperation) :
    FS × List Char :=
  match fs file_path with
  | none => (fs, notFoundMsg file_path)
  | some content =>
    (updateFS fs file_path (edits.foldl applyEdit content),
     "Successfully applied multiple edits to ".data ++ file_path.data)

/-- An observable file-system access performed by an operation. -/
inductive FileEvent
  | readF (p : String)
  | writeF (p : String) (content : List Char)
deriving DecidableEq

/-- Whether a file event is a write. -/
def FileEvent.isWrite : FileEvent → Bool
  | .readF _ => false
  | .writeF _ _ => true

/-- The sequence of file accesses `file_multi_edit` performs, in order: one
read of the whole content, then — after the whole edit loop, which works on
the in-memory string only — a single write of the final content.  (On a
missing file no access happens.) -/
def file_multi_edit_events (fs : FS) (file_path : String) (edits : List EditOperation) :
    List FileEvent :=
  match fs file_path with
  | none => []
  | some content =>
    [.readF file_path, .writeF file_path (edits.foldl applyEdit content)]

/-- Embedding of `file_read`: optional 0-indexed start line and line count;
lines keep their newline and are re-joined for the result. -/
def file_read (fs : FS) (file_path : String) (offset limit : Option Nat) : List Char :=
  match fs file_path with
  | none => notFoundMsg file_path
  | some content =>
    let lines := pyReadlines content
    let lines := match offset with | some o => lines.drop o | none => lines
    let lines := match limit with | some l => lines.take l | none => lines
    lines.flatten

/-- Embedding of `file_replace`: a standalone reimplementation of `file_edit`
(the source deliberately duplicates the logic), differing only in the wording
of the success message. -/
def file_replace (fs : FS) (file_path : String) (old_string new_string : List Char)
    (replace_all : Bool) : FS × List Char :=
  match fs file_path with
  | none => (fs, notFoundMsg file_path)
  | some content =>
    let new_content :=
      if replace_all then replaceAllChars old_string new_string content
      else replaceFirstChars old_string new_string content
    (updateFS fs file_path new_content,
     "Successfully replaced text in ".data ++ file_path.data)

/-! ## The command runner -/

/-- The static parameters of the `subprocess` call made by
`run_shell_command`: both branches use `shell=True` and capture both streams
into pipes; only the background branch passes `preexec_fn=os.setsid` (own
process group); only the foreground branch waits and passes a timeout. -/
structure SpawnConfig where
  command : List Char
  cwd : Option String
  shell : Bool
  ownProcessGroup : Bool
  waitsForCompletion : Bool
  timeout : Option Nat
  captureStdout : Bool
  captureStderr : Bool
deriving DecidableEq

/-- The operating system's behaviour of a waited-for child: it either
completes within the timeout with an exit code and captured streams, or the
wall-clock timeout expires first (`subprocess.TimeoutExpired`). -/
inductive RunOutcome
  | completed (exitCode : Int) (stdout stderr : List Char)
  | timedOut
deriving DecidableEq

/-- Embedding of `run_shell_command`.  `pid` is the process id the OS assigns
to a background spawn; `outcome` is how the OS runs a foreground child.  The
result is the `subprocess` call's static configuration together with the
string the tool returns. -/
def run_shell_command (command : List Char) (cwd : Option String) (timeout : Nat)
    (run_in_bg : Bool) (pid : Nat) (outcome : RunOutcome) : SpawnConfig × List Char :=
  if run_in_bg then
    ({ command := command, cwd := cwd, shell := true, ownProcessGroup := true,
       waitsForCompletion := false, timeout := none,
       captureStdout := true, captureStderr := true },
     "Process started in background with PID ".data ++ (toString pid).data)
  else
    ({ command := command, cwd := cwd, shell := true, ownProcessGroup := false,
       waitsForCompletion := true, timeout := some timeout,
       captureStdout := true, captureStderr := true },
     match outcome with
     | .completed code out err =>
       if code = 0 then pyStrip out
       else "Command failed: ".data ++ pyStrip err
     | .timedOut => "Command ".data ++ command ++ " timed out".data)

example :
    (run_shell_command "echo hi".data none 60 false 0
      (.completed 0 "hi\n".data [])).2 = "hi".data := by decide
example :
    (run_shell_command "sleep 5".data none 1 false 0 .timedOut).2
      = "Command sleep 5 timed out".data := by decide

-- Sanity checks of the Python string semantics on concrete data.
example : replaceAllChars "ab".data "X".data "abcab".data = "XcX".data := by
  simp [replaceAllChars, isPre]
example : replaceFirstChars "ab".data "X".data "abcab".data = "Xcab".data := by decide
example : replaceAllChars "aa".data "b".data "aaa".data = "ba".data := by
  simp [replaceAllChars, isPre]
example : replaceAllChars [] "-".data "ab".data = "-a-b-".data := by
  simp [replaceAllChars, isPre]
example : replaceFirstChars [] "-".data "ab".data = "-ab".data := by decide
example : pyStrip "  a b\n".data = "a b".data := by decide
example : pyReadlines "ab\ncd".data = ["ab\n".data, "cd".data] := by decide
example : pyReadlines "ab\n".data = ["ab\n".data] := by decide

/-! ## Lemmas about the substring primitives -/

theorem isPre_iff (o s : List Char) : isPre o s = true ↔ ∃ t, s = o ++ t := by
  induction o generalizing s with
  | nil => simp [isPre]
  | cons a as ih =>
    cases s with
    | nil => simp [isPre]
    | cons b bs =>
      simp only [isPre, Bool.and_eq_true, beq_iff_eq, ih]
      constructor
      · rintro ⟨rfl, t, rfl⟩
        exact ⟨t, rfl⟩
      · rintro ⟨t, h⟩
        cases h
        exact ⟨rfl, t, rfl⟩

theorem isPre_self_append (o t : List Char) : isPre o (o ++ t) = true :=
  (isPre_iff o (o ++ t)).mpr ⟨t, rfl⟩

theorem isPre_nil_left (s : List Char) : isPre [] s = true := by
  cases s <;> simp [isPre]

theorem occursIn_iff (o s : List Char) :
    occursIn o s = true ↔ ∃ a b, s = a ++ o ++ b := by
  induction s with
  | nil =>
    simp only [occursIn, isPre_iff]
    constructor
    · rintro ⟨t, h⟩
      exact ⟨[], t, by simpa using h⟩
    · rintro ⟨a, b, h⟩
      have h' : a = [] ∧ o = [] ∧ b = [] := by
        simpa [List.append_eq_nil] using h.symm
      exact ⟨b, by simp [h'.2.1, h'.2.2]⟩
  | cons c rest ih =>
    simp only [occursIn, Bool.or_eq_true, isPre_iff, ih]
    constructor
    · rintro (⟨t, h⟩ | ⟨a, b, h⟩)
      · exact ⟨[], t, by simpa using h⟩
      · exact ⟨c :: a, b, by simp [h]⟩
    · rintro ⟨a, b, h⟩
      cases a with
      | nil => exact Or.inl ⟨b, by simpa using h⟩
      | cons a' as =>
        right
        simp only [List.cons_append, List.cons.injEq] at h
        exact ⟨as, b, by simp [h.2]⟩

theorem occursIn_nil_left (s : List Char) : occursIn [] s = true := by
  cases s <;> simp [occursIn, isPre_nil_left]

theorem occursIn_ne_nil {o s : List Char} (h : occursIn o s = false) : o ≠ [] := by
  intro ho
  rw [ho, occursIn_nil_left] at h
  simp at h

/-! ## Lemmas about the two replacement functions -/

theorem replaceFirstChars_of_not_occursIn (o n s : List Char)
    (h : occursIn o s = false) : replaceFirstChars o n s = s := by
  induction s with
  | nil =>
    have h1 : isPre o [] = false := by simpa [occursIn] using h
    simp [replaceFirstChars, h1]
  | cons c rest ih =>
    rw [occursIn, Bool.or_eq_false_iff] at h
    simp [replaceFirstChars, h.1, ih h.2]

theorem replaceAllChars_of_not_occursIn (o n s : List Char)
    (h : occursIn o s = false) : replaceAllChars o n s = s := by
  have ho : o ≠ [] := occursIn_ne_nil h
  have hoE : o.isEmpty = false := by
    cases o with
    | nil => exact absurd rfl ho
    | cons x xs => simp
  induction s with
  | nil => simp [replaceAllChars, hoE]
  | cons c rest ih =>
    rw [occursIn, Bool.or_eq_false_iff] at h
    rw [replaceAllChars]
    simp [hoE, h.1, ih h.2]

theorem replaceFirstChars_append_self (o n b : List Char) :
    replaceFirstChars o n (o ++ b) = n ++ b := by
  cases o with
  | nil =>
    cases b with
    | nil => simp [replaceFirstChars, isPre]
    | cons c bs => simp [replaceFirstChars, isPre_nil_left]
  | cons x xs =>
    have hp : isPre (x :: xs) (x :: (xs ++ b)) = true := by
      simpa using isPre_self_append (x :: xs) b
    simp [replaceFirstChars, hp, List.drop_left]

theorem replaceAllChars_append_self (o n b : List Char) (ho : o ≠ []) :
    replaceAllChars o n (o ++ b) = n ++ replaceAllChars o n b := by
  cases o with
  | nil => exact absurd rfl ho
  | cons x xs =>
    have hp : isPre (x :: xs) (x :: (xs ++ b)) = true := by
      simpa using isPre_self_append (x :: xs) b
    rw [List.cons_append, replaceAllChars]
    simp [hp, List.drop_left]

theorem replaceFirstChars_leftmost (o n a b : List Char)
    (hmin : ∀ i, i < a.length → isPre o ((a ++ o ++ b).drop i) = false) :
    replaceFirstChars o n (a ++ o ++ b) = a ++ n ++ b := by
  induction a with
  | nil => simpa using replaceFirstChars_append_self o n b
  | cons c as ih =>
    have h0 : isPre o (c :: (as ++ o ++ b)) = false := by
      have := hmin 0 (by simp)
      simpa [List.append_assoc] using this
    have hmin' : ∀ i, i < as.length → isPre o ((as ++ o ++ b).drop i) = false := by
      intro i hi
      have := hmin (i + 1) (by simpa using Nat.succ_lt_succ hi)
      simpa using this
    show replaceFirstChars o n (c :: (as ++ o ++ b)) = c :: (as ++ n ++ b)
    rw [replaceFirstChars, h0]
    simp only [Bool.false_eq_true, ↓reduceIte, List.cons.injEq, true_and]
    exact ih hmin'

theorem replaceAllChars_leftmost (o n a b : List Char) (ho : o ≠ [])
    (hmin : ∀ i, i < a.length → isPre o ((a ++ o ++ b).drop i) = false) :
    replaceAllChars o n (a ++ o ++ b) = a ++ n ++ replaceAllChars o n b := by
  have hoE : o.isEmpty = false := by
    cases o with
    | nil => exact absurd rfl ho
    | cons x xs => simp
  induction a with
  | nil => simpa using replaceAllChars_append_self o n b ho
  | cons c as ih =>
    have h0 : isPre o (c :: (as ++ o ++ b)) = false := by
      have := hmin 0 (by simp)
      simpa [List.append_assoc] using this
    have hmin' : ∀ i, i < as.length → isPre o ((as ++ o ++ b).drop i) = false := by
      intro i hi
      have := hmin (i + 1) (by simpa using Nat.succ_lt_succ hi)
      simpa using this
    show replaceAllChars o n (c :: (as ++ o ++ b)) = c :: (as ++ n ++ replaceAllChars o n b)
    rw [replaceAllChars]
    simp only [hoE, Bool.false_eq_true, ↓reduceDIte]
    rw [h0]
    simp only [Bool.false_eq_true, ↓reduceIte, List.cons.injEq, true_and]
    exact ih hmin'

/-! ## Lemmas about stripping and line splitting -/

theorem head?_dropWhile_false (p : Char → Bool) :
    ∀ (l : List Char) (c : Char), (l.dropWhile p).head? = some c → p c = false := by
  intro l
  induction l with
  | nil => intro c h; simp at h
  | cons x xs ih =>
    intro c h
    rw [List.dropWhile_cons] at h
    cases hx : p x with
    | true => rw [hx] at h; simp at h; exact ih c h
    | false =>
      rw [hx] at h
      simp at h
      rw [← h]
      exact hx

theorem getLast?_dropWhile_ne_nil (p : Char → Bool) :
    ∀ l : List Char, l.dropWhile p ≠ [] → (l.dropWhile p).getLast? = l.getLast? := by
  intro l
  induction l with
  | nil => intro h; simp at h
  | cons x xs ih =>
    intro h
    rw [List.dropWhile_cons] at h ⊢
    cases hx : p x with
    | true =>
      rw [hx] at h
      rw [if_pos rfl] at h ⊢
      rw [ih h]
      have hxs : xs ≠ [] := by
        intro h0
        rw [h0] at h
        simp at h
      cases xs with
      | nil => exact absurd rfl hxs
      | cons y ys => simp
    | false =>
      rw [if_neg Bool.false_ne_true]

/-- Full characterisation of `pyStrip`: the result is the argument minus some
all-whitespace margin at each end, and neither end of the result is
whitespace. -/
theorem pyStrip_spec (s : List Char) :
    ∃ w₁ w₂, s = w₁ ++ pyStrip s ++ w₂ ∧
      (∀ c ∈ w₁, isPySpace c = true) ∧ (∀ c ∈ w₂, isPySpace c = true) ∧
      (∀ c, (pyStrip s).head? = some c → isPySpace c = false) ∧
      (∀ c, (pyStrip s).getLast? = some c → isPySpace c = false) := by
  have hS : pyStrip s
      = (((s.dropWhile isPySpace).reverse.dropWhile isPySpace)).reverse := rfl
  refine ⟨s.takeWhile isPySpace,
    ((s.dropWhile isPySpace).reverse.takeWhile isPySpace).reverse, ?_, ?_, ?_, ?_, ?_⟩
  · conv_lhs => rw [← List.takeWhile_append_dropWhile isPySpace s]
    have hu2 : s.dropWhile isPySpace
        = ((s.dropWhile isPySpace).reverse.dropWhile isPySpace).reverse
          ++ ((s.dropWhile isPySpace).reverse.takeWhile isPySpace).reverse := by
      have h3 : (s.dropWhile isPySpace).reverse
          = (s.dropWhile isPySpace).reverse.takeWhile isPySpace
            ++ (s.dropWhile isPySpace).reverse.dropWhile isPySpace :=
        (List.takeWhile_append_dropWhile _ _).symm
      calc s.dropWhile isPySpace = (s.dropWhile isPySpace).reverse.reverse := by simp
        _ = ((s.dropWhile isPySpace).reverse.takeWhile isPySpace
              ++ (s.dropWhile isPySpace).reverse.dropWhile isPySpace).reverse := by
            conv_lhs => rw [h3]
        _ = _ := List.reverse_append _ _
    rw [hS]
    conv_lhs => rw [hu2]
    simp [List.append_assoc]
  · intro c hc
    exact List.mem_takeWhile_imp hc
  · intro c hc
    rw [List.mem_reverse] at hc
    exact List.mem_takeWhile_imp hc
  · intro c hc
    rw [hS, List.head?_reverse] at hc
    have hvne : (s.dropWhile isPySpace).reverse.dropWhile isPySpace ≠ [] := by
      intro h0
      rw [h0] at hc
      simp at hc
    rw [getLast?_dropWhile_ne_nil isPySpace _ hvne, List.getLast?_reverse] at hc
    exact head?_dropWhile_false isPySpace _ _ hc
  · intro c hc
    rw [hS, List.getLast?_reverse] at hc
    exact head?_dropWhile_false isPySpace _ _ hc

theorem flatten_pyReadlines (s : List Char) : (pyReadlines s).flatten = s := by
  induction s with
  | nil => simp [pyReadlines]
  | cons c rest ih =>
    rw [pyReadlines]
    by_cases hc : c = '\n'
    · simp [hc, ih]
    · rw [if_neg hc]
      cases hr : pyReadlines rest with
      | nil =>
        rw [hr] at ih
        simp at ih
        simp [← ih]
      | cons l ls =>
        rw [hr] at ih
        simp only [List.flatten_cons] at ih ⊢
        simp [ih]

/-- The minimality form of "leftmost occurrence" used by the claims (no other
decomposition starts earlier) is equivalent to "no match starts at any earlier
position". -/
theorem leftmost_min_iff (o a b : List Char) :
    (∀ a' b', a ++ o ++ b = a' ++ o ++ b' → a.length ≤ a'.length) ↔
    (∀ i, i < a.length → isPre o ((a ++ o ++ b).drop i) = false) := by
  constructor
  · intro h i hi
    cases hcase : isPre o ((a ++ o ++ b).drop i) with
    | false => rfl
    | true =>
      obtain ⟨t, ht⟩ := (isPre_iff _ _).mp hcase
      have hsplit : a ++ o ++ b = (a ++ o ++ b).take i ++ o ++ t := by
        conv_lhs => rw [← List.take_append_drop i (a ++ o ++ b)]
        rw [ht]
        simp [List.append_assoc]
      have hlen : ((a ++ o ++ b).take i).length = i := by
        rw [List.length_take]
        have : i ≤ (a ++ o ++ b).length := by
          simp only [List.length_append]
          omega
        omega
      have := h _ t hsplit
      omega
  · intro h a' b' heq
    by_contra hlt
    push_neg at hlt
    have hp : isPre o ((a ++ o ++ b).drop a'.length) = true := by
      rw [heq, List.append_assoc, List.drop_left]
      exact isPre_self_append o b'
    have := h a'.length hlt
    rw [this] at hp
    simp at hp

/-! ## Small helpers about the file-system model -/

theorem updateFS_self (fs : FS) (p : String) (C : List Char) (h : fs p = some C) :
    updateFS fs p C = fs := by
  funext q
  by_cases hq : q = p
  · subst hq
    simp [updateFS, h]
  · simp [updateFS, hq]

theorem updateFS_at (fs : FS) (p : String) (C : List Char) : updateFS fs p C p = some C := by
  simp [updateFS]

theorem edit_success_ne_notFound (p : String) :
    "Successfully edited ".data ++ p.data ≠ notFoundMsg p := by
  intro h
  rw [notFoundMsg] at h
  have h2 : ('S' :: "uccessfully edited ".data) ++ p.data
      = ('F' :: "ile not found: ".data) ++ (p.data ++ ". Recheck the path.".data) := by
    simpa [List.append_assoc] using h
  rw [List.cons_append, List.cons_append] at h2
  injection h2 with hSF _
  exact absurd hSF (by decide)

theorem replace_success_ne_notFound (p : String) :
    "Successfully replaced text in ".data ++ p.data ≠ notFoundMsg p := by
  intro h
  rw [notFoundMsg] at h
  have h2 : ('S' :: "uccessfully replaced text in ".data) ++ p.data
      = ('F' :: "ile not found: ".data) ++ (p.data ++ ". Recheck the path.".data) := by
    simpa [List.append_assoc] using h
  rw [List.cons_append, List.cons_append] at h2
  injection h2 with hSF _
  exact absurd hSF (by decide)

/-! ## The claims about the command runner -/

/-- C4 (counterexample to the claim as stated): a successful command whose
standard output starts with a space does not get that leading space preserved —
`strip()` removes it, so the result differs from the trailing-stripped-only
output the claim promises. -/
theorem run_stdout_strip_counterexample :
    (run_shell_command "echo x".data none 60 false 0
        (RunOutcome.completed 0 " hello".data [])).2 = "hello".data ∧
    (run_shell_command "echo x".data none 60 false 0
        (RunOutcome.completed 0 " hello".data [])).2 ≠ " hello".data := by
  constructor
  · decide
  · decide

/-- C4 (amended): for every foreground command that exits with code zero, the
result is the captured standard output with BOTH leading and trailing
whitespace stripped: the output splits as whitespace margin, then the result
(interior preserved), then whitespace margin, and the result neither starts
nor ends with whitespace. -/
theorem run_stdout_stripped (cmd : List Char) (cwd : Option String) (t pid : Nat)
    (out err : List Char) :
    ∃ w₁ w₂,
      out = w₁ ++ (run_shell_command cmd cwd t false pid (.completed 0 out err)).2 ++ w₂ ∧
      (∀ c ∈ w₁, isPySpace c = true) ∧ (∀ c ∈ w₂, isPySpace c = true) ∧
      (∀ c, (run_shell_command cmd cwd t false pid (.completed 0 out err)).2.head? = some c →
        isPySpace c = false) ∧
      (∀ c, (run_shell_command cmd cwd t false pid (.completed 0 out err)).2.getLast? = some c →
        isPySpace c = false) := by
  have hr : (run_shell_command cmd cwd t false pid (.completed 0 out err)).2 = pyStrip out := by
    simp [run_shell_command]
  rw [hr]
  exact pyStrip_spec out

/-- C5: at the failing input (a foreground `sleep 5` with a 1-second timeout)
the embedded spawn configuration shows the foreground child is NOT created in
its own process group (`preexec_fn=os.setsid` is passed only in the background
branch), even though the timeout message does carry the original command. -/
theorem run_timeout_no_process_group :
    (run_shell_command "sleep 5".data none 1 false 0 RunOutcome.timedOut).1.ownProcessGroup
        = false ∧
    (run_shell_command "sleep 5".data none 1 false 0 RunOutcome.timedOut).2
        = "Command ".data ++ "sleep 5".data ++ " timed out".data :=
  ⟨rfl, rfl⟩

/-- C7: a foreground command completing with a non-zero exit code yields the
`Command failed:` message carrying the stripped standard-error content (the
error stream splits as whitespace, stripped message, whitespace), and the
result never depends on the standard-output payload. -/
theorem run_failed_stderr (cmd : List Char) (cwd : Option String) (t pid : Nat)
    (code : Int) (out err : List Char) (h : code ≠ 0) :
    (run_shell_command cmd cwd t false pid (.completed code out err)).2
        = "Command failed: ".data ++ pyStrip err ∧
    (∃ w₁ w₂, err = w₁ ++ pyStrip err ++ w₂ ∧
      (∀ c ∈ w₁, isPySpace c = true) ∧ (∀ c ∈ w₂, isPySpace c = true)) ∧
    (∀ out', (run_shell_command cmd cwd t false pid (.completed code out' err)).2
        = (run_shell_command cmd cwd t false pid (.completed code out err)).2) := by
  refine ⟨by simp [run_shell_command, h], ?_, ?_⟩
  · obtain ⟨w₁, w₂, hsp, hw1, hw2, _, _⟩ := pyStrip_spec err
    exact ⟨w₁, w₂, hsp, hw1, hw2⟩
  · intro out'
    simp [run_shell_command, h]

/-- C7 witness: the theorem applied at exit code 1 with stderr `" oops\n"`. -/
theorem run_failed_stderr_witness :
    (1 : Int) ≠ 0 ∧
    (run_shell_command "ls /x".data none 60 false 0
        (.completed 1 "ignored".data " oops\n".data)).2
      = "Command failed: ".data ++ pyStrip " oops\n".data :=
  ⟨by decide,
   (run_failed_stderr "ls /x".data none 60 0 1 "ignored".data " oops\n".data (by decide)).1⟩

/-- C8: with the background flag set, the spawn configuration puts the child
in its own process group, does not wait, passes no timeout, and the returned
string carries the spawned process identifier; the result never depends on
how (or whether) the command completes, so no output is captured into it. -/
theorem run_background_spec (cmd : List Char) (cwd : Option String) (t pid : Nat)
    (outcome : RunOutcome) :
    (run_shell_command cmd cwd t true pid outcome).1.ownProcessGroup = true ∧
    (run_shell_command cmd cwd t true pid outcome).1.waitsForCompletion = false ∧
    (run_shell_command cmd cwd t true pid outcome).1.timeout = none ∧
    (run_shell_command cmd cwd t true pid outcome).2
        = "Process started in background with PID ".data ++ (toString pid).data ∧
    (∀ outcome', (run_shell_command cmd cwd t true pid outcome').2
        = (run_shell_command cmd cwd t true pid outcome).2) :=
  ⟨rfl, rfl, rfl, rfl, fun _ => rfl⟩

/-! ## The claims about the text patcher -/

/-- C1: for an existing file, `file_edit` (a) leaves the content bit-identical
and still reports success when `old` does not occur, in either mode; (b) with
`replace_all = false` substitutes exactly the leftmost occurrence; (c) with
`replace_all = true` substitutes the leftmost occurrence and continues the
same substitution on the remainder after the match — i.e. every
non-overlapping occurrence, scanning left to right. -/
theorem file_edit_spec (fs : FS) (p : String) (old new C : List Char)
    (hC : fs p = some C) :
    (occursIn old C = false → ∀ ra,
        (file_edit fs p old new ra).1 = fs ∧
        (file_edit fs p old new ra).2 = "Successfully edited ".data ++ p.data) ∧
    (∀ a b, C = a ++ old ++ b →
        (∀ a' b', C = a' ++ old ++ b' → a.length ≤ a'.length) →
        (file_edit fs p old new false).1 p = some (a ++ new ++ b)) ∧
    (old ≠ [] → ∀ a b, C = a ++ old ++ b →
        (∀ a' b', C = a' ++ old ++ b' → a.length ≤ a'.length) →
        (file_edit fs p old new true).1 p
          = some (a ++ new ++ replaceAllChars old new b)) := by
  refine ⟨?_, ?_, ?_⟩
  · intro hocc ra
    have hfc : (if ra then replaceAllChars old new C else replaceFirstChars old new C) = C := by
      cases ra with
      | true => simpa using replaceAllChars_of_not_occursIn old new C hocc
      | false => simpa using replaceFirstChars_of_not_occursIn old new C hocc
    constructor
    · show (file_edit fs p old new ra).1 = fs
      simp only [file_edit, hC]
      rw [hfc]
      exact updateFS_self fs p C hC
    · simp [file_edit, hC]
  · intro a b hab hmin
    subst hab
    have hdrop := (leftmost_min_iff old a b).mp hmin
    have h1 : (file_edit fs p old new false).1
        = updateFS fs p (replaceFirstChars old new (a ++ old ++ b)) := by
      simp [file_edit, hC]
    rw [h1, updateFS_at, replaceFirstChars_leftmost old new a b hdrop]
  · intro ho a b hab hmin
    subst hab
    have hdrop := (leftmost_min_iff old a b).mp hmin
    have h1 : (file_edit fs p old new true).1
        = updateFS fs p (replaceAllChars old new (a ++ old ++ b)) := by
      simp [file_edit, hC]
    rw [h1, updateFS_at, replaceAllChars_leftmost old new a b ho hdrop]

/-- C1 witness: the theorem applied to a file `"f"` holding `"abcab"`: a
non-occurring `old` leaves the state unchanged, and replacing the first
`"ab"` by `"X"` gives `"Xcab"`. -/
theorem file_edit_spec_witness :
    ((fun q => if q = "f" then some ("abcab".data) else none) : FS) "f"
        = some ("abcab".data) ∧
    occursIn "zz".data "abcab".data = false ∧
    (file_edit (fun q => if q = "f" then some ("abcab".data) else none) "f"
        ("zz".data) ("y".data) true).1
      = (fun q => if q = "f" then some ("abcab".data) else none) ∧
    "abcab".data = [] ++ "ab".data ++ "cab".data ∧
    (file_edit (fun q => if q = "f" then some ("abcab".data) else none) "f"
        ("ab".data) ("X".data) false).1 "f" = some ("Xcab".data) := by
  have h1 := file_edit_spec (fun q => if q = "f" then some ("abcab".data) else none) "f"
      ("zz".data) ("y".data) ("abcab".data) rfl
  have h2 := file_edit_spec (fun q => if q = "f" then some ("abcab".data) else none) "f"
      ("ab".data) ("X".data) ("abcab".data) rfl
  refine ⟨rfl, by decide, (h1.1 (by decide) true).1, by decide, ?_⟩
  have h3 := h2.2.1 [] ("cab".data) (by decide) (fun a' b' _ => Nat.zero_le _)
  exact h3.trans (by decide)

/-- C2: on an existing file, `file_multi_edit` with two well-formed operations
produces the same final content at that path as running `file_edit` with the
first operation and then `file_edit` with the second on the updated state —
each operation consumes the output of the previous one. -/
theorem file_multi_edit_compose (fs : FS) (p : String) (C : List Char)
    (e1 e2 : EditOperation) (o1 n1 o2 n2 : List Char) (hC : fs p = some C)
    (h1o : e1.old_string = some o1) (h1n : e1.new_string = some n1)
    (h2o : e2.old_string = some o2) (h2n : e2.new_string = some n2) :
    (file_multi_edit fs p [e1, e2]).1 p
      = (file_edit (file_edit fs p o1 n1 e1.replace_all).1 p o2 n2 e2.replace_all).1 p := by
  cases hr1 : e1.replace_all <;> cases hr2 : e2.replace_all <;>
    simp [file_multi_edit, file_edit, applyEdit, updateFS, hC, h1o, h1n, h2o, h2n, hr1, hr2]

/-- C2 witness: the theorem applied to a file `"f"` holding `"aa"` and the
operation list (replace first `"a"` by `"b"`, then all `"ba"` by `"c"`). -/
theorem file_multi_edit_compose_witness :
    ((fun q => if q = "f" then some ("aa".data) else none) : FS) "f" = some ("aa".data) ∧
    (⟨some ("a".data), some ("b".data), false⟩ : EditOperation).old_string = some ("a".data) ∧
    (file_multi_edit (fun q => if q = "f" then some ("aa".data) else none) "f"
        [⟨some ("a".data), some ("b".data), false⟩,
         ⟨some ("ba".data), some ("c".data), true⟩]).1 "f"
      = (file_edit (file_edit (fun q => if q = "f" then some ("aa".data) else none) "f"
          ("a".data) ("b".data) false).1 "f" ("ba".data) ("c".data) true).1 "f" := by
  refine ⟨rfl, rfl, ?_⟩
  exact file_multi_edit_compose _ "f" ("aa".data) _ _ ("a".data) ("b".data)
    ("ba".data) ("c".data) rfl rfl rfl rfl rfl

/-- C3: on an existing file, `file_read` with no offset/limit returns the full
content; with offset `o` and limit `l` it returns exactly the concatenation of
the slice `[o : o+l]` of the lines of the full read; and an offset at or past
the number of lines yields the empty result (with any limit), never an
error. -/
theorem file_read_spec (fs : FS) (p : String) (C : List Char) (hC : fs p = some C) :
    file_read fs p none none = C ∧
    (∀ o l, file_read fs p (some o) (some l)
        = (((pyReadlines (file_read fs p none none)).take (o + l)).drop o).flatten) ∧
    (∀ o l, (pyReadlines C).length ≤ o → file_read fs p (some o) l = []) := by
  have hfull : file_read fs p none none = C := by
    simp [file_read, hC, flatten_pyReadlines]
  refine ⟨hfull, ?_, ?_⟩
  · intro o l
    have hval : file_read fs p (some o) (some l)
        = (((pyReadlines C).drop o).take l).flatten := by
      simp [file_read, hC]
    have hslice : ((pyReadlines C).take (o + l)).drop o
        = ((pyReadlines C).drop o).take l := by
      rw [List.drop_take]
      congr 1
      omega
    rw [hfull, hval, hslice]
  · intro o l hlen
    have hnil : (pyReadlines C).drop o = [] := List.drop_eq_nil_of_le hlen
    cases l with
    | none => simp [file_read, hC, hnil]
    | some l' => simp [file_read, hC, hnil]

/-- C3 witness: the theorem applied to a file holding three lines: slicing
with offset 1 and limit 1 returns exactly the second line. -/
theorem file_read_spec_witness :
    ((fun q => if q = "f" then some ("l1\nl2\nl3".data) else none) : FS) "f"
        = some ("l1\nl2\nl3".data) ∧
    file_read (fun q => if q = "f" then some ("l1\nl2\nl3".data) else none) "f"
        (some 1) (some 1) = "l2\n".data := by
  refine ⟨rfl, ?_⟩
  have h := (file_read_spec (fun q => if q = "f" then some ("l1\nl2\nl3".data) else none)
      "f" ("l1\nl2\nl3".data) rfl).2.1 1 1
  exact h.trans (by decide)

/-- C6: a path that does not name an existing file makes `file_read`,
`file_edit` and `file_multi_edit` return the not-found message (no exception
can pass the boundary: the operations are total), and the edit operations
leave the file-system state exactly as it was. -/
theorem missing_file_spec (fs : FS) (p : String) (h : fs p = none) :
    (∀ off lim, file_read fs p off lim = notFoundMsg p) ∧
    (∀ o n ra, file_edit fs p o n ra = (fs, notFoundMsg p)) ∧
    (∀ edits, file_multi_edit fs p edits = (fs, notFoundMsg p)) := by
  refine ⟨?_, ?_, ?_⟩
  · intro off lim
    simp [file_read, h]
  · intro o n ra
    simp [file_edit, h]
  · intro edits
    simp [file_multi_edit, h]

/-- C6 witness: the theorem applied to the empty file system at path
`"nope"`. -/
theorem missing_file_spec_witness :
    ((fun _ => none) : FS) "nope" = none ∧
    file_read (fun _ => none) "nope" none none = notFoundMsg "nope" ∧
    file_edit (fun _ => none) "nope" ("a".data) ("b".data) false
      = (((fun _ => none) : FS), notFoundMsg "nope") ∧
    file_multi_edit (fun _ => none) "nope" [] = (((fun _ => none) : FS), notFoundMsg "nope") := by
  have h := missing_file_spec (fun _ => none) "nope" rfl
  exact ⟨rfl, h.1 none none, h.2.1 ("a".data) ("b".data) false, h.2.2 []⟩

/-- C9: on an existing file, the file accesses of `file_multi_edit` are
exactly one read followed by exactly one write; the single write is the last
access and carries the content obtained by applying ALL edit operations in
sequence, so no half-edited intermediate content is ever written, and
the state update agrees with that single final write. -/
theorem multi_edit_single_write (fs : FS) (p : String) (C : List Char)
    (edits : List EditOperation) (hC : fs p = some C) :
    file_multi_edit_events fs p edits
      = [FileEvent.readF p, FileEvent.writeF p (edits.foldl applyEdit C)] ∧
    ((file_multi_edit_events fs p edits).filter FileEvent.isWrite).length = 1 ∧
    (file_multi_edit_events fs p edits).getLast?
      = some (FileEvent.writeF p (edits.foldl applyEdit C)) ∧
    (file_multi_edit fs p edits).1 p = some (edits.foldl applyEdit C) := by
  refine ⟨?_, ?_, ?_, ?_⟩ <;>
    simp [file_multi_edit_events, file_multi_edit, hC, updateFS, FileEvent.isWrite, List.filter]

/-- C9 witness: the theorem applied to a file `"f"` holding `"aa"` and one
edit operation. -/
theorem multi_edit_single_write_witness :
    ((fun q => if q = "f" then some ("aa".data) else none) : FS) "f" = some ("aa".data) ∧
    file_multi_edit_events (fun q => if q = "f" then some ("aa".data) else none) "f"
        [⟨some ("a".data), some ("b".data), false⟩]
      = [FileEvent.readF "f", FileEvent.writeF "f"
          ([(⟨some ("a".data), some ("b".data), false⟩ : EditOperation)].foldl
            applyEdit ("aa".data))] := by
  exact ⟨rfl, (multi_edit_single_write _ "f" ("aa".data) _ rfl).1⟩

/-- C10: `file_replace` is behaviourally equivalent to `file_edit`: for every
state, path, old/new text and flag they produce the identical final file
system, and one returns the not-found message exactly when the other does
(the wording of the success strings is the only difference). -/
theorem file_replace_equiv (fs : FS) (p : String) (o n : List Char) (ra : Bool) :
    (file_replace fs p o n ra).1 = (file_edit fs p o n ra).1 ∧
    ((file_replace fs p o n ra).2 = notFoundMsg p ↔
      (file_edit fs p o n ra).2 = notFoundMsg p) := by
  cases h : fs p with
  | none => simp [file_replace, file_edit, h]
  | some C =>
    refine ⟨by simp [file_replace, file_edit, h], ?_⟩
    have r1 : (file_replace fs p o n ra).2
        = "Successfully replaced text in ".data ++ p.data := by
      simp [file_replace, h]
    have r2 : (file_edit fs p o n ra).2 = "Successfully edited ".data ++ p.data := by
      simp [file_edit, h]
    rw [r1, r2]
    exact iff_of_false (replace_success_ne_notFound p) (edit_success_ne_notFound p)
